import Mathlib

/-!
Shallow embedding of `src/arg.rs` of the oxy repository: the command-line
schema built by `create_app`, the clap-style parsing of an argument vector
against it, the `create_matches` implicit-client fallback, and the derived
accessors (`mode`, `matches`, `destination`, `bind_address`,
`batched_metacommands`, `perspective`, and the verbosity level used by
`process`).  Machine-level `unwrap` failures are modelled by `Option`
(`none` = the call aborts).
-/

namespace Oxy

/-- Clap error kinds relevant to `create_matches` (clap 2.x `ErrorKind`). -/
inductive ErrorKind
  | HelpDisplayed
  | VersionDisplayed
  | UnrecognizedSubcommand
  | MissingArgumentOrSubcommand
  | MissingRequiredArgument
  | UnknownArgument
  | EmptyValue
deriving DecidableEq

/-- Equality of `Except` results is decidable componentwise. -/
instance {e a : Type} [DecidableEq e] [DecidableEq a] : DecidableEq (Except e a) := fun x y =>
  match x, y with
  | .ok v, .ok w =>
    if h : v = w then isTrue (congrArg Except.ok h)
    else isFalse (fun hh => h (Except.ok.inj hh))
  | .error v, .error w =>
    if h : v = w then isTrue (congrArg Except.error h)
    else isFalse (fun hh => h (Except.error.inj hh))
  | .ok _, .error _ => isFalse (fun hh => Except.noConfusion hh)
  | .error _, .ok _ => isFalse (fun hh => Except.noConfusion hh)

/-- One argument specification, mirroring clap's `Arg` builder fields as used
in `create_app`. -/
structure ArgSpec where
  name : String
  short : Option Char := none
  long : Option String := none
  takesValue : Bool := false
  multiple : Bool := false
  numberOfValues : Option Nat := none
  index : Option Nat := none
  defaultValue : Option String := none
  required : Bool := false
  envVar : Option String := none
  displayOrder : Option Nat := none
  help : String := ""

/-- One subcommand specification, mirroring clap's `SubCommand`. -/
structure SubSpec where
  name : String
  hidden : Bool := false
  about : String := ""
  args : List ArgSpec

/-- Embeds `let metacommand = ...` in `create_app`. -/
def metacommand : ArgSpec :=
  { name := "metacommand", short := some 'm', long := some "metacommand",
    takesValue := true, multiple := true, numberOfValues := some 1,
    help := "A command to run after the connection is established. The same commands from the F10 prompt." }

/-- Embeds `let identity = ...` in `create_app`. -/
def identity : ArgSpec :=
  { name := "identity", short := some 'i', long := some "identity", takesValue := true,
    envVar := some "OXY_IDENTITY",
    help := "Use [identity] as authentication information for connecting to the remote server." }

/-- Embeds `let command = ...` in `create_app`. -/
def command : ArgSpec := { name := "command", index := some 2 }

/-- Embeds `let l_portfwd = ...` in `create_app`. -/
def l_portfwd : ArgSpec :=
  { name := "local port forward", multiple := true, short := some 'L', takesValue := true,
    numberOfValues := some 1, displayOrder := some 102, help := "Create a local portforward" }

/-- Embeds `let r_portfwd = ...` in `create_app`. -/
def r_portfwd : ArgSpec :=
  { name := "remote port forward", multiple := true, short := some 'R', takesValue := true,
    numberOfValues := some 1, displayOrder := some 103, help := "Create a remote portforward" }

/-- Embeds `let d_portfwd = ...` in `create_app`. -/
def d_portfwd : ArgSpec :=
  { name := "socks", multiple := true, short := some 'D', long := some "socks",
    takesValue := true, numberOfValues := some 1, displayOrder := some 104,
    help := "Bind a local port as a SOCKS5 proxy" }

/-- Embeds `let port = ...` in `create_app`. -/
def port : ArgSpec :=
  { name := "port", short := some 'p', long := some "port", takesValue := true,
    defaultValue := some "2600", help := "The port used for TCP" }

/-- Embeds `let user = ...` in `create_app`. -/
def user : ArgSpec :=
  { name := "user", long := some "user", takesValue := true,
    help := "The remote username to log in with. Only applicable for servers using --su-mode" }

/-- Embeds `let via = ...` in `create_app`. -/
def via : ArgSpec :=
  { name := "via", long := some "via", takesValue := true, multiple := true,
    numberOfValues := some 1,
    help := "Connect to a different oxy server first, then proxy traffic through the intermediary server." }

/-- Embeds `let verbose = ...` in `create_app`. -/
def verbose : ArgSpec :=
  { name := "verbose", long := some "verbose", multiple := true, short := some 'v',
    help := "Increase debugging output" }

/-- Embeds `let xforward = ...` in `create_app`. -/
def xforward : ArgSpec :=
  { name := "X Forwarding", short := some 'X', long := some "x-forwarding",
    help := "Enable X forwarding" }

/-- Embeds `let trusted_xforward = ...` in `create_app`. -/
def trusted_xforward : ArgSpec :=
  { name := "Trusted X Forwarding", short := some 'Y', long := some "trusted-x-forwarding",
    help := "Enable trusted X forwarding" }

/-- Embeds `let server_config = ...` in `create_app`.  clap's `default_value` makes
the argument value-taking. -/
def server_config : ArgSpec :=
  { name := "server config", long := some "server-config",
    defaultValue := some "~/.config/oxy/server.conf", help := "Path to server.conf" }

/-- Embeds `let client_config = ...` in `create_app`. -/
def client_config : ArgSpec :=
  { name := "client config", long := some "client-config",
    defaultValue := some "~/.config/oxy/client.conf", help := "Path to client.conf" }

/-- Embeds `let forced_command = ...` in `create_app`. -/
def forced_command : ArgSpec :=
  { name := "forced command", long := some "forced-command", takesValue := true,
    help := "Restrict command execution to the specified command" }

/-- Embeds `let unsafe_reexec = ...` in `create_app`. -/
def unsafe_reexec : ArgSpec :=
  { name := "unsafe reexec", long := some "unsafe-reexec",
    help := "Bypass safety restrictions intended to avoid privilege elevation" }

/-- Embeds `let compression = ...` in `create_app`. -/
def compression : ArgSpec :=
  { name := "compression", short := some 'C', long := some "compress",
    help := "Enable ZLIB format compression of all transmitted data" }

/-- Embeds `let no_tmux = ...` in `create_app`. -/
def no_tmux : ArgSpec :=
  { name := "no tmux", long := some "no-tmux",
    help := "Do not use a terminal multiplexer as the default pty command" }

/-- Embeds `let multiplexer = ...` in `create_app`. -/
def multiplexer : ArgSpec :=
  { name := "multiplexer", long := some "multiplexer",
    defaultValue := some "/usr/bin/tmux new-session -A -s oxy",
    help := "The command to attach to a terminal multiplexer. Ignored if the first component is not an existent file, or if --no-tmux is supplied." }

/-- Embeds `let client_args = vec![...]` in `create_app`. -/
def client_args : List ArgSpec :=
  [metacommand, identity, l_portfwd, r_portfwd, d_portfwd, port, xforward, trusted_xforward,
   server_config, client_config, user, via, compression, verbose, command]

/-- Embeds `let server_args = vec![...]` in `create_app`. -/
def server_args : List ArgSpec :=
  [server_config, client_config, forced_command, identity, port, verbose, no_tmux, multiplexer]

/-- Embeds `Arg::with_name("destination").index(1).required(true)`, used by the
`client` and `reverse-server` subcommands. -/
def destination_arg : ArgSpec := { name := "destination", index := some 1, required := true }

/-- Embeds `Arg::with_name("fd").long("fd").takes_value(true).required(true)` of the
`reexec` subcommand. -/
def fd_arg : ArgSpec := { name := "fd", long := some "fd", takesValue := true, required := true }

/-- Embeds `Arg::with_name("bind-address").index(1).default_value("::0")`, used by the
`serve-one` and `reverse-client` subcommands. -/
def bind_address_arg : ArgSpec :=
  { name := "bind-address", index := some 1, defaultValue := some "::0" }

/-- Embeds `Arg::with_name("location").index(1).multiple(true).number_of_values(1)` of
the `copy` subcommand. -/
def location_arg : ArgSpec :=
  { name := "location", index := some 1, multiple := true, numberOfValues := some 1 }

/-- The `subcommands` vector of `create_app`: the nine modes with their
argument lists. -/
def app_subcommands : List SubSpec :=
  [ { name := "client", about := "Connect to an Oxy server.",
      args := client_args ++ [destination_arg] },
    { name := "reexec", hidden := true,
      about := "Service a single oxy connection. Not intended to be run directly, run by oxy server",
      args := fd_arg :: server_args },
    { name := "server",
      about := "Listen for port knocks, accept TCP connections, then reexec for each one.",
      args := server_args ++ [unsafe_reexec] },
    { name := "serve-one",
      about := "Accept a single TCP connection, then service it in the same process.",
      args := server_args ++ [bind_address_arg] },
    { name := "reverse-server",
      about := "Connect out to a listening client. Then, be a server.",
      args := server_args ++ [destination_arg] },
    { name := "reverse-client",
      about := "Bind a port and wait for a server to connect. Then, be a client.",
      args := client_args ++ [bind_address_arg] },
    { name := "copy",
      about := "Copy files from any number of sources to one destination.",
      args := [client_config, server_config, compression, location_arg, identity, verbose] },
    { name := "guide",
      about := "Print information to help a new user get the most out of Oxy.", args := [] },
    { name := "keygen", about := "Generate keys", args := [] } ]

/-- The matched data recorded for one argument: occurrence count and the
values collected in command-line order. -/
structure ArgMatchData where
  occs : Nat
  vals : List String
deriving DecidableEq

/-- The per-subcommand match map (clap's inner `ArgMatches`): association list
from argument name to its matched data. -/
abbrev SubMatches := List (String × ArgMatchData)

/-- Association-list lookup by argument name. -/
def lookupEntry : SubMatches → String → Option ArgMatchData
  | [], _ => none
  | (k, d) :: rest, key => if k = key then some d else lookupEntry rest key

/-- Record one more value for an argument (creating its entry if needed);
`c` tells whether this also counts as a user-supplied occurrence. -/
def addVal : SubMatches → String → String → Bool → SubMatches
  | [], key, v, c => [(key, ⟨if c then 1 else 0, [v]⟩)]
  | (k, d) :: rest, key, v, c =>
    if k = key then (k, ⟨d.occs + (if c then 1 else 0), d.vals ++ [v]⟩) :: rest
    else (k, d) :: addVal rest key v c

/-- Record one more occurrence of a value-less flag. -/
def addOcc : SubMatches → String → SubMatches
  | [], key => [(key, ⟨1, []⟩)]
  | (k, d) :: rest, key =>
    if k = key then (k, ⟨d.occs + 1, d.vals⟩) :: rest else (k, d) :: addOcc rest key

/-- clap's `value_of`: the first recorded value, if any. -/
def value_of (sm : SubMatches) (k : String) : Option String :=
  (lookupEntry sm k).bind (fun d => d.vals.head?)

/-- clap's `values_of`: all recorded values in order; `none` when there are
no values. -/
def values_of (sm : SubMatches) (k : String) : Option (List String) :=
  match lookupEntry sm k with
  | some d => if d.vals.isEmpty then none else some d.vals
  | none => none

/-- clap's `occurrences_of`. -/
def occurrences_of (sm : SubMatches) (k : String) : Nat :=
  match lookupEntry sm k with
  | some d => d.occs
  | none => 0

/-- Whether the argument consumes a value: `takes_value`, a `default_value`,
or a positional index each make it value-taking in clap. -/
def effTakesValue (a : ArgSpec) : Bool :=
  a.takesValue || a.defaultValue.isSome || a.index.isSome

/-- Consume one free (non-flag) token as the positional of index `posIdx`;
a `multiple` positional keeps absorbing further free tokens. -/
def posStep (specs : List ArgSpec) (posIdx : Nat) (acc : SubMatches) (t : String) :
    Except ErrorKind (SubMatches × Nat) :=
  match List.find? (fun a => decide (a.index = some posIdx)) specs with
  | none => .error .UnknownArgument
  | some a => .ok (addVal acc a.name t true, if a.multiple then posIdx else posIdx + 1)

/-- Split the body of a long flag at the first `=` into name and inline value. -/
def splitEq : List Char → List Char × Option (List Char)
  | [] => ([], none)
  | '=' :: rest => ([], some rest)
  | c :: rest =>
    let p := splitEq rest
    (c :: p.1, p.2)

/-- Process one `--name[=value]` token.  Returns the updated matches and, when
the flag still awaits its value, the argument name expecting the next token. -/
def longStep (specs : List ArgSpec) (acc : SubMatches) (body : List Char) :
    Except ErrorKind (SubMatches × Option String) :=
  let p := splitEq body
  let nm := String.mk p.1
  if nm = "help" then .error .HelpDisplayed
  else if nm = "version" then .error .VersionDisplayed
  else
    match List.find? (fun a => decide (a.long = some nm)) specs with
    | none => .error .UnknownArgument
    | some a =>
      if effTakesValue a then
        match p.2 with
        | some v => .ok (addVal acc a.name (String.mk v) true, none)
        | none => .ok (acc, some a.name)
      else
        match p.2 with
        | some _ => .error .UnknownArgument
        | none => .ok (addOcc acc a.name, none)

/-- Process the characters of one grouped short-flag token (after the `-`).
Returns the updated matches and, when the last flag awaits its value from the
next token, that argument's name. -/
def shortLoop (specs : List ArgSpec) : SubMatches → List Char → Except ErrorKind (SubMatches × Option String)
  | acc, [] => .ok (acc, none)
  | acc, c :: cs =>
    if c = 'h' then .error .HelpDisplayed
    else if c = 'V' then .error .VersionDisplayed
    else
      match List.find? (fun a => decide (a.short = some c)) specs with
      | none => .error .UnknownArgument
      | some a =>
        if effTakesValue a then
          match cs with
          | [] => .ok (acc, some a.name)
          | c2 :: cs2 =>
            if c2 = '=' then .ok (addVal acc a.name (String.mk cs2) true, none)
            else .ok (addVal acc a.name (String.mk (c2 :: cs2)) true, none)
        else shortLoop specs (addOcc acc a.name) cs

/-- A free token consumed as a positional, wrapped in the shape `tokenStep`
returns. -/
def posToken (specs : List ArgSpec) (posIdx : Nat) (acc : SubMatches) (t : String) (dd : Bool) :
    Except ErrorKind (SubMatches × Nat × Bool × Option String) :=
  match posStep specs posIdx acc t with
  | .error e => .error e
  | .ok (acc2, p2) => .ok (acc2, p2, dd, none)

/-- Consume one token: returns the updated matches, the next positional index,
the updated `--`-seen flag, and (for a flag split from its value) the argument
name awaiting the next token as its value. -/
def tokenStep (specs : List ArgSpec) (dd : Bool) (posIdx : Nat) (acc : SubMatches) (t : String) :
    Except ErrorKind (SubMatches × Nat × Bool × Option String) :=
  if dd then posToken specs posIdx acc t dd
  else
    match t.data with
    | [] => posToken specs posIdx acc t dd
    | c1 :: cs1 =>
      if c1 = '-' then
        match cs1 with
        | [] => posToken specs posIdx acc t dd
        | c2 :: cs2 =>
          if c2 = '-' then
            match cs2 with
            | [] => .ok (acc, posIdx, true, none)
            | body =>
              match longStep specs acc body with
              | .error e => .error e
              | .ok (acc2, pend) => .ok (acc2, posIdx, dd, pend)
          else
            match shortLoop specs acc (c2 :: cs2) with
            | .error e => .error e
            | .ok (acc2, pend) => .ok (acc2, posIdx, dd, pend)
      else posToken specs posIdx acc t dd

/-- The token-consuming loop of the parse: `dd` records that a bare `--` was
seen (everything afterwards is positional), `posIdx` is the next positional
index to fill. -/
def parseLoop (specs : List ArgSpec) : Bool → Nat → SubMatches → List String → Except ErrorKind SubMatches
  | _, _, acc, [] => .ok acc
  | dd, posIdx, acc, t :: rest =>
    match tokenStep specs dd posIdx acc t with
    | .error e => .error e
    | .ok (acc2, p2, dd2, none) => parseLoop specs dd2 p2 acc2 rest
    | .ok (acc2, p2, dd2, some nm) =>
      match rest with
      | [] => .error .EmptyValue
      | v :: rest2 => parseLoop specs dd2 p2 (addVal acc2 nm v true) rest2

/-- The process environment, as an association list of variables. -/
abbrev Env := List (String × String)

/-- Environment-variable lookup. -/
def envLookup : Env → String → Option String
  | [], _ => none
  | (k, v) :: rest, key => if k = key then some v else envLookup rest key

/-- clap's environment fallback: an argument with an `env` source that was not
mentioned on the command line takes its value from the environment. -/
def fillEnv : List ArgSpec → Env → SubMatches → SubMatches
  | [], _, acc => acc
  | a :: rest, env, acc =>
    match a.envVar with
    | some v =>
      if (lookupEntry acc a.name).isNone then
        match envLookup env v with
        | some val => fillEnv rest env (addVal acc a.name val false)
        | none => fillEnv rest env acc
      else fillEnv rest env acc
    | none => fillEnv rest env acc

/-- Whether the argument has no recorded value yet. -/
def valueAbsent (acc : SubMatches) (k : String) : Bool :=
  match lookupEntry acc k with
  | none => true
  | some d => d.vals.isEmpty

/-- clap's `add_default_values`: arguments that declare a `default_value` and
still have no value receive the default. -/
def fillDefaults : List ArgSpec → SubMatches → SubMatches
  | [], acc => acc
  | a :: rest, acc =>
    match a.defaultValue with
    | some d =>
      if valueAbsent acc a.name then fillDefaults rest (addVal acc a.name d false)
      else fillDefaults rest acc
    | none => fillDefaults rest acc

/-- clap's presence test used for the `required` check. -/
def argPresent (acc : SubMatches) (a : ArgSpec) : Bool :=
  match lookupEntry acc a.name with
  | none => false
  | some d => if effTakesValue a then !d.vals.isEmpty else (d.occs != 0 || !d.vals.isEmpty)

/-- Parse one subcommand's tokens against its argument specifications:
token loop, then environment fallbacks, then defaults, then the `required`
check. -/
def parseArgs (specs : List ArgSpec) (env : Env) (toks : List String) :
    Except ErrorKind SubMatches :=
  match parseLoop specs false 1 [] toks with
  | .error e => .error e
  | .ok acc =>
    let acc3 := fillDefaults specs (fillEnv specs env acc)
    if specs.all (fun a => !a.required || argPresent acc3 a) then .ok acc3
    else .error .MissingRequiredArgument

/-- The top-level `ArgMatches`: which subcommand was chosen, with its inner
matches. -/
structure Matches where
  sub : Option (String × SubMatches)
deriving DecidableEq

/-- clap's `ArgMatches::subcommand_name`. -/
def subcommand_name (m : Matches) : Option String := m.sub.map (fun p => p.1)

/-- clap's `ArgMatches::subcommand_matches`. -/
def subcommand_matches (m : Matches) (nm : String) : Option SubMatches :=
  match m.sub with
  | some (k, sm) => if k = nm then some sm else none
  | none => none

/-- Embeds `create_app().get_matches_from_safe(argv)`: the whole-app parse.  The app
has the `SubcommandRequiredElseHelp` setting, so an argument vector without a
subcommand fails; `help`/`-h`/`--help` yield the `HelpDisplayed` error kind. -/
def parseApp (env : Env) (argv : List String) : Except ErrorKind Matches :=
  match argv with
  | [] => .error .MissingArgumentOrSubcommand
  | _prog :: rest =>
    match rest with
    | [] => .error .MissingArgumentOrSubcommand
    | tok :: subToks =>
      if tok = "-h" ∨ tok = "--help" ∨ tok = "help" then .error .HelpDisplayed
      else if tok = "-V" ∨ tok = "--version" then .error .VersionDisplayed
      else
        match List.find? (fun s => decide (s.name = tok)) app_subcommands with
        | some sub =>
          match parseArgs sub.args env subToks with
          | .ok sm => .ok { sub := some (tok, sm) }
          | .error e => .error e
        | none =>
          if tok.data.head? = some '-' then .error .UnknownArgument
          else .error .UnrecognizedSubcommand

/-- The outcome of `create_matches`: either a resolved `ArgMatches`, or the
process printed usage/help and terminated (`get_matches` on a failing parse). -/
inductive MatchOutcome
  | resolved (m : Matches)
  | exited (e : ErrorKind)
deriving DecidableEq

/-- Embeds `create_app().get_matches()`: returns the matches on success, terminates
the process on failure. -/
def get_matches (env : Env) (argv : List String) : MatchOutcome :=
  match parseApp env argv with
  | .ok m => .resolved m
  | .error e => .exited e

/-- Embeds `args2.insert(1, "client")` on the argument vector (index 0 is the
program name, which is always present). -/
def insertClient : List String → List String
  | [] => ["client"]
  | p :: rest => p :: "client" :: rest

/-- Embeds `create_matches` from `src/arg.rs`: direct parse; on a help request,
rerun `get_matches`; otherwise on failure retry with `"client"` inserted at
position 1; if that also fails, a final `get_matches` on the original vector. -/
def create_matches (argv : List String) (env : Env) : MatchOutcome :=
  match parseApp env argv with
  | .error e =>
    if e = .HelpDisplayed then get_matches env argv
    else
      match parseApp env (insertClient argv) with
      | .ok m => .resolved m
      | .error _ => get_matches env argv
  | .ok m => .resolved m

/-- Embeds `mode()`: `MATCHES.subcommand_name().unwrap()`; `none` models the panic. -/
def mode (m : Matches) : Option String := subcommand_name m

/-- Embeds `matches()` (named `active_matches` here, `matches` is reserved): `MATCHES.subcommand_matches(mode()).unwrap()`. -/
def active_matches (m : Matches) : Option SubMatches :=
  (mode m).bind (fun nm => subcommand_matches m nm)

/-- Embeds `destination()`: `matches().value_of("destination").unwrap()`; `none`
models the panic of either `unwrap`. -/
def destination (m : Matches) : Option String :=
  (active_matches m).bind (fun sm => value_of sm "destination")

/-- Embeds `bind_address()`: `matches().value_of("bind-address").unwrap_or("0.0.0.0")`. -/
def bind_address (m : Matches) : Option String :=
  (active_matches m).map (fun sm => (value_of sm "bind-address").getD "0.0.0.0")

/-- Embeds `batched_metacommands()`: all `metacommand` values in order, empty when
none were supplied. -/
def batched_metacommands (m : Matches) : Option (List String) :=
  (active_matches m).map (fun sm =>
    match values_of sm "metacommand" with
    | none => []
    | some vs => vs)

/-- Embeds `transportation::EncryptionPerspective` (Alice = initiator, Bob =
responder). -/
inductive EncryptionPerspective
  | Alice
  | Bob
deriving DecidableEq

/-- Embeds `perspective()` from `src/arg.rs`: a match on `mode()`. -/
def perspective (m : Matches) : Option EncryptionPerspective :=
  (mode m).map (fun s =>
    match s with
    | "reexec" => .Bob
    | "server" => .Bob
    | "serve-one" => .Bob
    | "reverse-server" => .Bob
    | _ => .Alice)

/-- The verbosity match of `process()`: occurrence count of `verbose` to log
level. -/
def verbosity_level (n : Nat) : String :=
  match n with
  | 0 => "info"
  | 1 => "debug"
  | 2 => "trace"
  | _ => "trace"

/-- The level `process()` computes for the active invocation. -/
def process_level (m : Matches) : Option String :=
  (active_matches m).map (fun sm => verbosity_level (occurrences_of sm "verbose"))

/-- Projection of a `MatchOutcome` to its resolved matches, if any. -/
def MatchOutcome.getResolved : MatchOutcome → Option Matches
  | .resolved m => some m
  | .exited _ => none

/-- Whether `create_matches` resolved (rather than terminating the process). -/
def MatchOutcome.isResolved : MatchOutcome → Bool
  | .resolved _ => true
  | .exited _ => false

/-- The resolved matches of an outcome, defaulting to an empty `Matches`
(used only to name concrete resolved values). -/
def forceResolved : MatchOutcome → Matches
  | .resolved m => m
  | .exited _ => ⟨none⟩

/-- Embeds `mode()` of a resolved outcome. -/
def resolved_mode (o : MatchOutcome) : Option String := o.getResolved.bind mode

/-- Embeds `destination()` of a resolved outcome. -/
def resolved_destination (o : MatchOutcome) : Option String := o.getResolved.bind destination

/-- Embeds `bind_address()` of a resolved outcome. -/
def resolved_bind_address (o : MatchOutcome) : Option String := o.getResolved.bind bind_address

/-- Embeds `batched_metacommands()` of a resolved outcome. -/
def resolved_metacommands (o : MatchOutcome) : Option (List String) :=
  o.getResolved.bind batched_metacommands

/-- Embeds `perspective()` of a resolved outcome. -/
def resolved_perspective (o : MatchOutcome) : Option EncryptionPerspective :=
  o.getResolved.bind perspective



/-- Every key recorded in a match map names an argument of the given
specification list. -/
def keysOk (specs : List ArgSpec) (sm : SubMatches) : Prop :=
  ∀ p ∈ sm, ∃ a ∈ specs, a.name = p.1

theorem lookupEntry_mem {sm : SubMatches} {k : String} {d : ArgMatchData}
    (h : lookupEntry sm k = some d) : (k, d) ∈ sm := by
  induction sm with
  | nil => simp [lookupEntry] at h
  | cons p rest ih =>
    obtain ⟨k', d'⟩ := p
    rw [lookupEntry] at h
    by_cases hk : k' = k
    · simp [hk] at h
      subst hk
      subst h
      exact List.mem_cons_self _ _
    · simp [hk] at h
      exact List.mem_cons_of_mem _ (ih h)

theorem keysOk_tail {specs : List ArgSpec} {p : String × ArgMatchData} {rest : SubMatches}
    (h : keysOk specs (p :: rest)) : keysOk specs rest :=
  fun q hq => h q (List.mem_cons_of_mem _ hq)

theorem addVal_keysOk {specs : List ArgSpec} {acc : SubMatches} {k v : String} {c : Bool}
    (h : keysOk specs acc) (hk : ∃ a ∈ specs, a.name = k) :
    keysOk specs (addVal acc k v c) := by
  induction acc with
  | nil =>
    intro p hp
    simp [addVal] at hp
    subst hp
    exact hk
  | cons q rest ih =>
    obtain ⟨k', d'⟩ := q
    rw [addVal]
    by_cases hkk : k' = k
    · simp only [hkk, if_pos rfl]
      intro p hp
      rcases List.mem_cons.mp hp with hp | hp
      · subst hp
        exact hk
      · exact h p (List.mem_cons_of_mem _ hp)
    · simp only [if_neg hkk]
      intro p hp
      rcases List.mem_cons.mp hp with hp | hp
      · subst hp
        exact h _ (List.mem_cons_self _ _)
      · exact ih (keysOk_tail h) p hp

theorem addOcc_keysOk {specs : List ArgSpec} {acc : SubMatches} {k : String}
    (h : keysOk specs acc) (hk : ∃ a ∈ specs, a.name = k) :
    keysOk specs (addOcc acc k) := by
  induction acc with
  | nil =>
    intro p hp
    simp [addOcc] at hp
    subst hp
    exact hk
  | cons q rest ih =>
    obtain ⟨k', d'⟩ := q
    rw [addOcc]
    by_cases hkk : k' = k
    · simp only [hkk, if_pos rfl]
      intro p hp
      rcases List.mem_cons.mp hp with hp | hp
      · subst hp
        exact hk
      · exact h p (List.mem_cons_of_mem _ hp)
    · simp only [if_neg hkk]
      intro p hp
      rcases List.mem_cons.mp hp with hp | hp
      · subst hp
        exact h _ (List.mem_cons_self _ _)
      · exact ih (keysOk_tail h) p hp

theorem posStep_keysOk {specs : List ArgSpec} {posIdx : Nat} {acc acc2 : SubMatches}
    {t : String} {p2 : Nat} (h : posStep specs posIdx acc t = .ok (acc2, p2))
    (hk : keysOk specs acc) : keysOk specs acc2 := by
  rw [posStep] at h
  cases hf : List.find? (fun a => decide (a.index = some posIdx)) specs with
  | none => rw [hf] at h; exact absurd h (by simp)
  | some a =>
    rw [hf] at h
    have hmem := List.mem_of_find?_eq_some hf
    simp only [Except.ok.injEq, Prod.mk.injEq] at h
    rw [← h.1]
    exact addVal_keysOk hk ⟨a, hmem, rfl⟩

theorem longStep_keysOk {specs : List ArgSpec} {acc acc2 : SubMatches} {body : List Char}
    {pend : Option String} (h : longStep specs acc body = .ok (acc2, pend))
    (hk : keysOk specs acc) :
    keysOk specs acc2 ∧ (∀ nm, pend = some nm → ∃ a ∈ specs, a.name = nm) := by
  rw [longStep] at h
  by_cases h1 : String.mk (splitEq body).1 = "help"
  · simp [h1] at h
  · by_cases h2 : String.mk (splitEq body).1 = "version"
    · simp [h1, h2] at h
    · simp only [h1, h2, if_false] at h
      cases hf : List.find? (fun a => decide (a.long = some (String.mk (splitEq body).1))) specs with
      | none => rw [hf] at h; exact absurd h (by simp)
      | some a =>
        rw [hf] at h
        have hmem := List.mem_of_find?_eq_some hf
        by_cases he : effTakesValue a = true
        · simp only [he, if_true] at h
          cases hv : (splitEq body).2 with
          | some v =>
            rw [hv] at h
            simp only [Except.ok.injEq, Prod.mk.injEq] at h
            refine ⟨h.1 ▸ addVal_keysOk hk ⟨a, hmem, rfl⟩, ?_⟩
            intro nm hnm
            rw [← h.2] at hnm
            exact absurd hnm (by simp)
          | none =>
            rw [hv] at h
            simp only [Except.ok.injEq, Prod.mk.injEq] at h
            refine ⟨h.1 ▸ hk, ?_⟩
            intro nm hnm
            rw [← h.2] at hnm
            simp at hnm
            exact ⟨a, hmem, hnm ▸ rfl⟩
        · rw [Bool.not_eq_true] at he
          simp only [he, Bool.false_eq_true, if_false] at h
          cases hv : (splitEq body).2 with
          | some v => rw [hv] at h; exact absurd h (by simp)
          | none =>
            rw [hv] at h
            simp only [Except.ok.injEq, Prod.mk.injEq] at h
            refine ⟨h.1 ▸ addOcc_keysOk hk ⟨a, hmem, rfl⟩, ?_⟩
            intro nm hnm
            rw [← h.2] at hnm
            exact absurd hnm (by simp)



theorem shortLoop_keysOk (specs : List ArgSpec) :
    ∀ acc chars acc2 pend, shortLoop specs acc chars = .ok (acc2, pend) → keysOk specs acc →
      keysOk specs acc2 ∧ (∀ nm, pend = some nm → ∃ a ∈ specs, a.name = nm) := by
  apply shortLoop.induct specs
  · intro acc acc2 pend h hk
    rw [shortLoop] at h
    simp only [Except.ok.injEq, Prod.mk.injEq] at h
    obtain ⟨rfl, rfl⟩ := h
    exact ⟨hk, by intro nm hnm; simp at hnm⟩
  · intro acc cs acc2 pend h hk
    rw [shortLoop] at h
    simp at h
  · intro acc cs hV acc2 pend h hk
    rw [shortLoop] at h
    rw [if_neg hV, if_pos rfl] at h
    simp at h
  · intro acc c cs hh hV hf acc2 pend h hk
    rw [shortLoop] at h
    rw [if_neg hh, if_neg hV, hf] at h
    simp at h
  · intro acc c hh hV a hf he acc2 pend h hk
    rw [shortLoop] at h
    rw [if_neg hh, if_neg hV, hf] at h
    simp only [he, if_true, Except.ok.injEq, Prod.mk.injEq] at h
    obtain ⟨rfl, rfl⟩ := h
    exact ⟨hk, fun nm hnm => ⟨a, List.mem_of_find?_eq_some hf, Option.some.inj hnm⟩⟩
  · intro acc c hh hV a hf he cs2 acc2 pend h hk
    rw [shortLoop] at h
    rw [if_neg hh, if_neg hV, hf] at h
    simp only [he, if_true, if_pos rfl, Except.ok.injEq, Prod.mk.injEq] at h
    obtain ⟨rfl, rfl⟩ := h
    refine ⟨addVal_keysOk hk ⟨a, List.mem_of_find?_eq_some hf, rfl⟩, ?_⟩
    intro nm hnm
    simp at hnm
  · intro acc c hh hV a hf he c2 cs2 hne acc2 pend h hk
    rw [shortLoop] at h
    rw [if_neg hh, if_neg hV, hf] at h
    simp only [he, if_true, if_neg hne, Except.ok.injEq, Prod.mk.injEq] at h
    obtain ⟨rfl, rfl⟩ := h
    refine ⟨addVal_keysOk hk ⟨a, List.mem_of_find?_eq_some hf, rfl⟩, ?_⟩
    intro nm hnm
    simp at hnm
  · intro acc c cs hh hV a hf he ih acc2 pend h hk
    rw [shortLoop] at h
    rw [if_neg hh, if_neg hV, hf] at h
    rw [Bool.not_eq_true] at he
    simp only [he, Bool.false_eq_true, if_false] at h
    exact ih acc2 pend h (addOcc_keysOk hk ⟨a, List.mem_of_find?_eq_some hf, rfl⟩)

theorem posToken_keysOk {specs : List ArgSpec} {posIdx : Nat} {acc acc2 : SubMatches}
    {t : String} {dd : Bool} {p2 : Nat} {dd2 : Bool} {pend : Option String}
    (h : posToken specs posIdx acc t dd = .ok (acc2, p2, dd2, pend))
    (hk : keysOk specs acc) :
    keysOk specs acc2 ∧ (∀ nm, pend = some nm → ∃ a ∈ specs, a.name = nm) := by
  rw [posToken] at h
  cases hp : posStep specs posIdx acc t with
  | error e => rw [hp] at h; simp at h
  | ok r =>
    obtain ⟨acc3, p3⟩ := r
    rw [hp] at h
    simp only [Except.ok.injEq, Prod.mk.injEq] at h
    obtain ⟨rfl, -, -, rfl⟩ := h
    refine ⟨posStep_keysOk hp hk, ?_⟩
    intro nm hnm
    simp at hnm

theorem tokenStep_keysOk {specs : List ArgSpec} {dd : Bool} {posIdx : Nat}
    {acc acc2 : SubMatches} {t : String} {p2 : Nat} {dd2 : Bool} {pend : Option String}
    (h : tokenStep specs dd posIdx acc t = .ok (acc2, p2, dd2, pend))
    (hk : keysOk specs acc) :
    keysOk specs acc2 ∧ (∀ nm, pend = some nm → ∃ a ∈ specs, a.name = nm) := by
  rw [tokenStep] at h
  by_cases hdd : dd = true
  · rw [if_pos hdd] at h
    exact posToken_keysOk h hk
  · rw [if_neg hdd] at h
    cases hdata : t.data with
    | nil =>
      rw [hdata] at h
      simp only [] at h
      exact posToken_keysOk h hk
    | cons c1 cs1 =>
      rw [hdata] at h
      simp only [] at h
      by_cases h1 : c1 = '-'
      · rw [if_pos h1] at h
        cases cs1 with
        | nil =>
          simp only [] at h
          exact posToken_keysOk h hk
        | cons c2 cs2 =>
          simp only [] at h
          by_cases h2 : c2 = '-'
          · rw [if_pos h2] at h
            cases cs2 with
            | nil =>
              simp only [Except.ok.injEq, Prod.mk.injEq] at h
              obtain ⟨rfl, -, -, rfl⟩ := h
              refine ⟨hk, ?_⟩
              intro nm hnm
              simp at hnm
            | cons c3 cs3 =>
              simp only [] at h
              cases hl : longStep specs acc (c3 :: cs3) with
              | error e => rw [hl] at h; simp at h
              | ok r =>
                obtain ⟨acc3, pd⟩ := r
                rw [hl] at h
                simp only [Except.ok.injEq, Prod.mk.injEq] at h
                obtain ⟨rfl, -, -, rfl⟩ := h
                exact longStep_keysOk hl hk
          · rw [if_neg h2] at h
            cases hs : shortLoop specs acc (c2 :: cs2) with
            | error e => rw [hs] at h; simp at h
            | ok r =>
              obtain ⟨acc3, pd⟩ := r
              rw [hs] at h
              simp only [Except.ok.injEq, Prod.mk.injEq] at h
              obtain ⟨rfl, -, -, rfl⟩ := h
              exact shortLoop_keysOk specs acc (c2 :: cs2) acc3 pd hs hk
      · rw [if_neg h1] at h
        exact posToken_keysOk h hk

theorem parseLoop_keysOk (specs : List ArgSpec) :
    ∀ dd posIdx acc toks acc2, parseLoop specs dd posIdx acc toks = .ok acc2 →
      keysOk specs acc → keysOk specs acc2 := by
  apply parseLoop.induct specs
  · intro dd posIdx acc acc2 h hk
    rw [parseLoop] at h
    simp only [Except.ok.injEq] at h
    exact h ▸ hk
  · intro dd posIdx acc t rest e hstep acc2 h hk
    rw [parseLoop, hstep] at h
    simp at h
  · intro dd posIdx acc t rest acc3 p2 dd2 hstep ih acc2 h hk
    rw [parseLoop, hstep] at h
    simp only [] at h
    exact ih acc2 h (tokenStep_keysOk hstep hk).1
  · intro dd posIdx acc t acc3 p2 dd2 nm hstep acc2 h hk
    rw [parseLoop, hstep] at h
    simp at h
  · intro dd posIdx acc t acc3 p2 dd2 nm hstep v rest2 ih acc2 h hk
    rw [parseLoop, hstep] at h
    simp only [] at h
    obtain ⟨hk2, hpend⟩ := tokenStep_keysOk hstep hk
    exact ih acc2 h (addVal_keysOk hk2 (hpend nm rfl))



theorem lookupEntry_addVal_self (acc : SubMatches) (k v : String) (c : Bool) :
    ∃ d0, lookupEntry (addVal acc k v c) k = some d0 ∧ d0.vals ≠ [] := by
  induction acc with
  | nil =>
    refine ⟨⟨if c = true then 1 else 0, [v]⟩, ?_, ?_⟩
    · simp [addVal, lookupEntry]
    · simp
  | cons p rest ih =>
    obtain ⟨k2, d⟩ := p
    by_cases hk : k2 = k
    · subst hk
      refine ⟨⟨d.occs + (if c = true then 1 else 0), d.vals ++ [v]⟩, ?_, ?_⟩
      · simp [addVal, lookupEntry]
      · simp
    · obtain ⟨d0, hd0, hv0⟩ := ih
      exact ⟨d0, by simp [addVal, lookupEntry, hk, hd0], hv0⟩

theorem lookupEntry_addVal_other (acc : SubMatches) (k v nm : String) (c : Bool)
    (h : ¬k = nm) : lookupEntry (addVal acc k v c) nm = lookupEntry acc nm := by
  induction acc with
  | nil => simp [addVal, lookupEntry, h]
  | cons p rest ih =>
    obtain ⟨k2, d⟩ := p
    by_cases hk : k2 = k
    · subst hk
      simp [addVal, lookupEntry, h]
    · by_cases hn : k2 = nm
      · subst hn
        simp [addVal, lookupEntry, hk, Ne.symm h]
      · simp [addVal, lookupEntry, hk, hn, ih]

theorem value_of_addVal_self (acc : SubMatches) (k v : String) (c : Bool) :
    (value_of (addVal acc k v c) k).isSome = true := by
  obtain ⟨d0, hd0, hv0⟩ := lookupEntry_addVal_self acc k v c
  rw [value_of, hd0]
  cases hl : d0.vals with
  | nil => exact absurd hl hv0
  | cons x xs => simp [hl]

theorem value_of_addVal_mono {acc : SubMatches} {nm : String} (k v : String) (c : Bool)
    (h : (value_of acc nm).isSome = true) :
    (value_of (addVal acc k v c) nm).isSome = true := by
  by_cases hk : k = nm
  · subst hk
    exact value_of_addVal_self acc k v c
  · rw [value_of, lookupEntry_addVal_other acc k v nm c hk]
    exact h

theorem fillEnv_mono {nm : String} (specs2 : List ArgSpec) (env : Env) (acc : SubMatches)
    (h : (value_of acc nm).isSome = true) :
    (value_of (fillEnv specs2 env acc) nm).isSome = true := by
  induction specs2 generalizing acc with
  | nil => simpa [fillEnv] using h
  | cons a rest ih =>
    rw [fillEnv]
    cases a.envVar with
    | none => exact ih acc h
    | some v =>
      simp only []
      by_cases habs : (lookupEntry acc a.name).isNone = true
      · rw [if_pos habs]
        cases envLookup env v with
        | none => exact ih acc h
        | some val => exact ih _ (value_of_addVal_mono _ _ _ h)
      · rw [if_neg habs]
        exact ih acc h

theorem fillDefaults_mono {nm : String} (specs2 : List ArgSpec) (acc : SubMatches)
    (h : (value_of acc nm).isSome = true) :
    (value_of (fillDefaults specs2 acc) nm).isSome = true := by
  induction specs2 generalizing acc with
  | nil => simpa [fillDefaults] using h
  | cons a rest ih =>
    rw [fillDefaults]
    cases a.defaultValue with
    | none => exact ih acc h
    | some d =>
      simp only []
      by_cases habs : valueAbsent acc a.name = true
      · rw [if_pos habs]
        exact ih _ (value_of_addVal_mono _ _ _ h)
      · rw [if_neg habs]
        exact ih acc h

theorem valueAbsent_false {acc : SubMatches} {k : String}
    (h : valueAbsent acc k = false) : (value_of acc k).isSome = true := by
  rw [valueAbsent] at h
  cases hl : lookupEntry acc k with
  | none => rw [hl] at h; simp at h
  | some d =>
    rw [hl] at h
    simp only [] at h
    rw [value_of, hl]
    cases hv : d.vals with
    | nil => rw [hv] at h; simp at h
    | cons x xs => simp [hv]

theorem fillDefaults_default (specs2 : List ArgSpec) (acc : SubMatches) (a : ArgSpec)
    (ha : a ∈ specs2) (hd : a.defaultValue.isSome = true) :
    (value_of (fillDefaults specs2 acc) a.name).isSome = true := by
  induction specs2 generalizing acc with
  | nil => simp at ha
  | cons b rest ih =>
    rw [fillDefaults]
    rcases List.mem_cons.mp ha with rfl | ha2
    · cases hbd : a.defaultValue with
      | none => rw [hbd] at hd; simp at hd
      | some d =>
        simp only []
        by_cases habs : valueAbsent acc a.name = true
        · rw [if_pos habs]
          exact fillDefaults_mono rest _ (value_of_addVal_self acc a.name d false)
        · rw [if_neg habs]
          exact fillDefaults_mono rest acc (valueAbsent_false (Bool.not_eq_true _ ▸ habs))
    · cases b.defaultValue with
      | none => exact ih acc ha2
      | some d =>
        simp only []
        by_cases habs : valueAbsent acc b.name = true
        · rw [if_pos habs]
          exact ih _ ha2
        · rw [if_neg habs]
          exact ih acc ha2

theorem fillEnv_keysOk {specs : List ArgSpec} (specs2 : List ArgSpec) (env : Env)
    (acc : SubMatches) (hsub : ∀ a ∈ specs2, a ∈ specs) (hk : keysOk specs acc) :
    keysOk specs (fillEnv specs2 env acc) := by
  induction specs2 generalizing acc with
  | nil => simpa [fillEnv] using hk
  | cons a rest ih =>
    have hsub2 : ∀ b ∈ rest, b ∈ specs := fun b hb => hsub b (List.mem_cons_of_mem _ hb)
    have hamem : a ∈ specs := hsub a (List.mem_cons_self _ _)
    rw [fillEnv]
    cases a.envVar with
    | none => exact ih acc hsub2 hk
    | some v =>
      simp only []
      by_cases habs : (lookupEntry acc a.name).isNone = true
      · rw [if_pos habs]
        cases envLookup env v with
        | none => exact ih acc hsub2 hk
        | some val => exact ih _ hsub2 (addVal_keysOk hk ⟨a, hamem, rfl⟩)
      · rw [if_neg habs]
        exact ih acc hsub2 hk

theorem fillDefaults_keysOk {specs : List ArgSpec} (specs2 : List ArgSpec)
    (acc : SubMatches) (hsub : ∀ a ∈ specs2, a ∈ specs) (hk : keysOk specs acc) :
    keysOk specs (fillDefaults specs2 acc) := by
  induction specs2 generalizing acc with
  | nil => simpa [fillDefaults] using hk
  | cons a rest ih =>
    have hsub2 : ∀ b ∈ rest, b ∈ specs := fun b hb => hsub b (List.mem_cons_of_mem _ hb)
    have hamem : a ∈ specs := hsub a (List.mem_cons_self _ _)
    rw [fillDefaults]
    cases a.defaultValue with
    | none => exact ih acc hsub2 hk
    | some d =>
      simp only []
      by_cases habs : valueAbsent acc a.name = true
      · rw [if_pos habs]
        exact ih _ hsub2 (addVal_keysOk hk ⟨a, hamem, rfl⟩)
      · rw [if_neg habs]
        exact ih acc hsub2 hk

theorem argPresent_value {sm : SubMatches} {a : ArgSpec}
    (h : argPresent sm a = true) (he : effTakesValue a = true) :
    (value_of sm a.name).isSome = true := by
  rw [argPresent] at h
  cases hl : lookupEntry sm a.name with
  | none => rw [hl] at h; simp at h
  | some d =>
    rw [hl] at h
    simp only [] at h
    rw [if_pos he] at h
    rw [value_of, hl]
    cases hv : d.vals with
    | nil => rw [hv] at h; simp at h
    | cons x xs => simp [hv]

theorem parseArgs_good {specs : List ArgSpec} {env : Env} {toks : List String}
    {sm : SubMatches} (h : parseArgs specs env toks = .ok sm) :
    keysOk specs sm ∧ (∀ a ∈ specs, a.required = true → argPresent sm a = true) ∧
      (∀ a ∈ specs, a.defaultValue.isSome = true → (value_of sm a.name).isSome = true) := by
  rw [parseArgs] at h
  cases hl : parseLoop specs false 1 [] toks with
  | error e => rw [hl] at h; simp at h
  | ok acc =>
    rw [hl] at h
    simp only [] at h
    by_cases hall :
        specs.all (fun a => !a.required || argPresent (fillDefaults specs (fillEnv specs env acc)) a) = true
    · rw [if_pos hall] at h
      simp only [Except.ok.injEq] at h
      subst h
      refine ⟨?_, ?_, ?_⟩
      · refine fillDefaults_keysOk specs _ (fun a ha => ha) ?_
        refine fillEnv_keysOk specs env acc (fun a ha => ha) ?_
        exact parseLoop_keysOk specs false 1 [] toks acc hl (fun p hp => absurd hp (List.not_mem_nil p))
      · intro a ha hr
        have h2 := List.all_eq_true.mp hall a ha
        simpa [hr] using h2
      · intro a ha hd
        exact fillDefaults_default specs _ a ha hd
    · rw [if_neg hall] at h
      simp at h

theorem parseApp_ok_elim {env : Env} {argv : List String} {m : Matches}
    (h : parseApp env argv = .ok m) :
    ∃ t sub toks sm, m.sub = some (t, sm) ∧
      List.find? (fun s => decide (s.name = t)) app_subcommands = some sub ∧
      parseArgs sub.args env toks = .ok sm := by
  rw [parseApp.eq_def] at h
  cases argv with
  | nil => simp at h
  | cons prog rest =>
    cases rest with
    | nil => simp at h
    | cons tok subToks =>
      simp only [] at h
      by_cases h1 : (tok = "-h" ∨ tok = "--help" ∨ tok = "help")
      · rw [if_pos h1] at h; simp at h
      · rw [if_neg h1] at h
        by_cases h2 : (tok = "-V" ∨ tok = "--version")
        · rw [if_pos h2] at h; simp at h
        · rw [if_neg h2] at h
          cases hf : List.find? (fun s => decide (s.name = tok)) app_subcommands with
          | none =>
            rw [hf] at h
            simp only [] at h
            by_cases h3 : tok.data.head? = some '-'
            · rw [if_pos h3] at h; simp at h
            · rw [if_neg h3] at h; simp at h
          | some sub =>
            rw [hf] at h
            simp only [] at h
            cases hp : parseArgs sub.args env subToks with
            | error e => rw [hp] at h; simp at h
            | ok sm =>
              rw [hp] at h
              simp only [Except.ok.injEq] at h
              exact ⟨tok, sub, subToks, sm, by rw [← h], hf, hp⟩

theorem create_matches_resolved_elim {argv : List String} {env : Env} {m : Matches}
    (h : create_matches argv env = .resolved m) :
    parseApp env argv = .ok m ∨ parseApp env (insertClient argv) = .ok m := by
  rw [create_matches] at h
  cases hp : parseApp env argv with
  | ok m2 =>
    rw [hp] at h
    simp only [MatchOutcome.resolved.injEq] at h
    left
    subst h
    rfl
  | error e =>
    rw [hp] at h
    simp only [] at h
    by_cases he : e = .HelpDisplayed
    · rw [if_pos he] at h
      rw [get_matches, hp] at h
      simp at h
    · rw [if_neg he] at h
      cases hp2 : parseApp env (insertClient argv) with
      | ok m2 =>
        rw [hp2] at h
        simp only [MatchOutcome.resolved.injEq] at h
        right
        subst h
        rfl
      | error e2 =>
        rw [hp2] at h
        rw [get_matches, hp] at h
        simp at h

/-- Structural facts about every successfully parsed `Matches`: there is an
active subcommand drawn from the schema, every recorded key names one of its
arguments, every required argument has a value, and every defaulted argument
has a value. -/
def GoodMatches (m : Matches) : Prop :=
  ∃ t sub sm, m.sub = some (t, sm) ∧ sub ∈ app_subcommands ∧ sub.name = t ∧
    keysOk sub.args sm ∧
    (∀ a ∈ sub.args, a.required = true → argPresent sm a = true) ∧
    (∀ a ∈ sub.args, a.defaultValue.isSome = true → (value_of sm a.name).isSome = true)

theorem parseApp_good {env : Env} {argv : List String} {m : Matches}
    (h : parseApp env argv = .ok m) : GoodMatches m := by
  obtain ⟨t, sub, toks, sm, hsub, hf, hp⟩ := parseApp_ok_elim h
  have hmem := List.mem_of_find?_eq_some hf
  have hname : sub.name = t := by
    have h2 := List.find?_some hf
    simpa using h2
  obtain ⟨hk, hreq, hdef⟩ := parseArgs_good hp
  exact ⟨t, sub, sm, hsub, hmem, hname, hk, hreq, hdef⟩

theorem create_matches_good {argv : List String} {env : Env} {m : Matches}
    (h : create_matches argv env = .resolved m) : GoodMatches m := by
  rcases create_matches_resolved_elim h with h2 | h2 <;> exact parseApp_good h2

theorem mode_of_sub {m : Matches} {t : String} {sm : SubMatches}
    (h : m.sub = some (t, sm)) : mode m = some t := by
  simp [mode, subcommand_name, h]

theorem active_matches_of_sub {m : Matches} {t : String} {sm : SubMatches}
    (h : m.sub = some (t, sm)) : active_matches m = some sm := by
  simp [active_matches, mode, subcommand_name, subcommand_matches, h]

theorem value_of_none_of_keysOk {specs : List ArgSpec} {sm : SubMatches} {k : String}
    (hk : keysOk specs sm) (hno : ∀ a ∈ specs, ¬a.name = k) : value_of sm k = none := by
  cases hl : lookupEntry sm k with
  | none => simp [value_of, hl]
  | some d =>
    obtain ⟨a, ha, hnm⟩ := hk _ (lookupEntry_mem hl)
    exact absurd hnm (hno a ha)

/-- The process state relevant to the `lazy_static` cache `MATCHES`: the cache
cell, plus the argument vector and environment that `create_matches` would
read. -/
structure ProcState where
  cache : Option MatchOutcome
  argv : List String
  env : Env

/-- Dereferencing `MATCHES`: on first access the parse runs against the
current process inputs and the result is stored; afterwards the stored value
is returned untouched. -/
def MATCHES_access (s : ProcState) : MatchOutcome × ProcState :=
  match s.cache with
  | some m => (m, s)
  | none =>
    let m := create_matches s.argv s.env
    (m, { s with cache := some m })

/-- C1 counterexample: the invocation `["oxy", "client"]` does NOT fail
terminally; the direct parse fails (missing required `destination`), but the
implicit-client heuristic reparses it as `["oxy", "client", "client"]`, which
resolves to the client mode — contradicting the claim that resolution never
succeeds for this input. -/
theorem claim_C1_cx :
    (create_matches ["oxy", "client"] []).isResolved = true ∧
    resolved_mode (create_matches ["oxy", "client"] []) = some "client" := by
  exact ⟨by decide, by decide⟩

/-- C1 (amended): for `["oxy", "client"]` the direct parse fails, and the
implicit-client heuristic resolves the retry `["oxy", "client", "client"]`
to the client mode with destination `"client"`; resolution does not fail. -/
theorem claim_C1 :
    create_matches ["oxy", "client"] [] = create_matches ["oxy", "client", "client"] [] ∧
    resolved_mode (create_matches ["oxy", "client"] []) = some "client" ∧
    resolved_destination (create_matches ["oxy", "client"] []) = some "client" := by
  exact ⟨by decide, by decide, by decide⟩

/-- C2: a successful direct parse is returned unchanged (the heuristic never
fires); on any non-help failure the vector with `"client"` inserted at
position 1 is reparsed, whose success is returned; and when the retry also
fails, the final parse of the original vector reproduces the original
failure, which is the one that terminates the process. -/
theorem claim_C2 (argv : List String) (env : Env) :
    (∀ m, parseApp env argv = .ok m → create_matches argv env = .resolved m) ∧
    (∀ e, parseApp env argv = .error e → ¬e = ErrorKind.HelpDisplayed →
      (∀ m2, parseApp env (insertClient argv) = .ok m2 →
        create_matches argv env = .resolved m2) ∧
      (∀ e2, parseApp env (insertClient argv) = .error e2 →
        create_matches argv env = .exited e)) := by
  constructor
  · intro m h
    rw [create_matches, h]
  · intro e h hne
    constructor
    · intro m2 h2
      rw [create_matches, h]
      simp only []
      rw [if_neg hne, h2]
    · intro e2 h2
      rw [create_matches, h]
      simp only []
      rw [if_neg hne, h2]
      simp only []
      rw [get_matches, h]

/-- C2 witness: `["oxy", "--bogus"]` fails directly (unknown argument), the
client retry also fails, and the process exits with the original error. -/
theorem claim_C2_w :
    create_matches ["oxy", "--bogus"] [] = .exited .UnknownArgument := by
  have h := (claim_C2 ["oxy", "--bogus"] []).2 .UnknownArgument (by decide) (by decide)
  exact h.2 .UnknownArgument (by decide)

/-- C3: `["oxy", "somehost"]` resolves to exactly the same outcome as
`["oxy", "client", "somehost"]`, with the client mode active and destination
`"somehost"`. -/
theorem claim_C3 :
    create_matches ["oxy", "somehost"] [] = create_matches ["oxy", "client", "somehost"] [] ∧
    resolved_mode (create_matches ["oxy", "somehost"] []) = some "client" ∧
    resolved_destination (create_matches ["oxy", "somehost"] []) = some "somehost" := by
  exact ⟨by decide, by decide, by decide⟩

/-- C4 counterexample: a resolved `reverse-client` invocation on which
`destination()` is undefined (`none`, i.e. the `unwrap` panics) — so
`destination()` is NOT defined for the ReverseClient mode, contrary to the
claim: the `reverse-client` subcommand has a `bind-address` positional, not a
`destination`. -/
theorem claim_C4_cx :
    (create_matches ["oxy", "reverse-client"] []).isResolved = true ∧
    resolved_mode (create_matches ["oxy", "reverse-client"] []) = some "reverse-client" ∧
    resolved_destination (create_matches ["oxy", "reverse-client"] []) = none := by
  exact ⟨by decide, by decide, by decide⟩

/-- C4 (amended): for every resolved invocation, `destination()` is defined
(returns a value, rather than panicking) exactly when the active mode is
Client or ReverseServer — the only two modes whose schema has a
(required) `destination` argument. -/
theorem claim_C4 (argv : List String) (env : Env) (m : Matches)
    (h : create_matches argv env = .resolved m) :
    (destination m).isSome = true ↔
      (mode m = some "client" ∨ mode m = some "reverse-server") := by
  obtain ⟨t, sub, sm, hsub, hmem, hname, hkeys, hreq, -⟩ := create_matches_good h
  have hmode := mode_of_sub hsub
  have hact := active_matches_of_sub hsub
  have hdest : destination m = value_of sm "destination" := by
    rw [destination, hact]
    rfl
  constructor
  · intro hsome
    rw [hdest] at hsome
    cases hl : lookupEntry sm "destination" with
    | none => rw [value_of, hl] at hsome; simp at hsome
    | some d =>
      obtain ⟨a, ha, hnm⟩ := hkeys _ (lookupEntry_mem hl)
      have hdec : ∀ s ∈ app_subcommands, s.name = "client" ∨ s.name = "reverse-server" ∨
          (∀ b ∈ s.args, ¬b.name = "destination") := by decide
      rcases hdec sub hmem with hcl | hrs | hnone
      · left
        rw [hname] at hcl
        rw [hmode, hcl]
      · right
        rw [hname] at hrs
        rw [hmode, hrs]
      · exact absurd hnm (hnone a ha)
  · intro hcase
    have hdec2 : ∀ s ∈ app_subcommands, (s.name = "client" ∨ s.name = "reverse-server") →
        ∃ b ∈ s.args, b.name = "destination" ∧ b.required = true ∧
          effTakesValue b = true := by decide
    have ht : sub.name = "client" ∨ sub.name = "reverse-server" := by
      rcases hcase with h1 | h1
      · left
        rw [hname]
        rw [hmode] at h1
        exact Option.some.inj h1
      · right
        rw [hname]
        rw [hmode] at h1
        exact Option.some.inj h1
    obtain ⟨a, ha, hnm, hr, he⟩ := hdec2 sub hmem ht
    have hp := hreq a ha hr
    have hv := argPresent_value hp he
    rw [hdest, ← hnm]
    exact hv

/-- C4 witness: a resolved client invocation, on which `destination()` is
defined. -/
theorem claim_C4_w :
    (destination (forceResolved (create_matches ["oxy", "client", "example.com"] []))).isSome
      = true := by
  have h := claim_C4 ["oxy", "client", "example.com"] []
    (forceResolved (create_matches ["oxy", "client", "example.com"] [])) (by decide)
  exact h.mpr (Or.inl (by decide))

/-- C5: for every resolved invocation, `perspective()` returns Bob
(responder) exactly when the mode is reexec, server, serve-one, or
reverse-server, and Alice (initiator) exactly when the mode is one of the
five remaining modes. -/
theorem claim_C5 (argv : List String) (env : Env) (m : Matches)
    (h : create_matches argv env = .resolved m) :
    (perspective m = some EncryptionPerspective.Bob ↔
      (mode m = some "reexec" ∨ mode m = some "server" ∨ mode m = some "serve-one" ∨
        mode m = some "reverse-server")) ∧
    (perspective m = some EncryptionPerspective.Alice ↔
      (mode m = some "client" ∨ mode m = some "reverse-client" ∨ mode m = some "copy" ∨
        mode m = some "guide" ∨ mode m = some "keygen")) := by
  obtain ⟨t, sub, sm, hsub, hmem, hname, -, -, -⟩ := create_matches_good h
  have hmode := mode_of_sub hsub
  have h9 : ∀ s ∈ app_subcommands, s.name = "client" ∨ s.name = "reexec" ∨ s.name = "server" ∨
      s.name = "serve-one" ∨ s.name = "reverse-server" ∨ s.name = "reverse-client" ∨
      s.name = "copy" ∨ s.name = "guide" ∨ s.name = "keygen" := by decide
  have ht := h9 sub hmem
  rw [hname] at ht
  rw [perspective, hmode]
  rcases ht with rfl | rfl | rfl | rfl | rfl | rfl | rfl | rfl | rfl <;> exact ⟨by decide, by decide⟩

/-- C5 witness: the keygen mode yields the Alice (initiator) perspective. -/
theorem claim_C5_w :
    perspective (forceResolved (create_matches ["oxy", "keygen"] []))
      = some EncryptionPerspective.Alice := by
  have h := claim_C5 ["oxy", "keygen"] []
    (forceResolved (create_matches ["oxy", "keygen"] [])) (by decide)
  exact h.2.mpr (Or.inr (Or.inr (Or.inr (Or.inr (by decide)))))

/-- C6: `bind_address()` returns the supplied positional for `serve-one` and
`reverse-client`, the schema default `"::0"` when the positional is omitted,
and — for every resolved invocation whose mode is NOT one of those two — the
defensive fallback `"0.0.0.0"`, since no other mode's schema has a
`bind-address` argument; in the serve-one/reverse-client modes the recorded
`bind-address` value is always present and returned as is. -/
theorem claim_C6 :
    resolved_bind_address (create_matches ["oxy", "serve-one", "fe80::1"] []) = some "fe80::1" ∧
    resolved_bind_address (create_matches ["oxy", "reverse-client", "10.1.2.3"] [])
      = some "10.1.2.3" ∧
    resolved_bind_address (create_matches ["oxy", "serve-one"] []) = some "::0" ∧
    resolved_bind_address (create_matches ["oxy", "reverse-client"] []) = some "::0" ∧
    ∀ argv env m, create_matches argv env = .resolved m →
      (¬(mode m = some "serve-one" ∨ mode m = some "reverse-client") →
        bind_address m = some "0.0.0.0") ∧
      ((mode m = some "serve-one" ∨ mode m = some "reverse-client") →
        ∃ sm v, active_matches m = some sm ∧ value_of sm "bind-address" = some v ∧
          bind_address m = some v) := by
  refine ⟨by decide, by decide, by decide, by decide, ?_⟩
  intro argv env m h
  obtain ⟨t, sub, sm, hsub, hmem, hname, hkeys, -, hdef⟩ := create_matches_good h
  have hmode := mode_of_sub hsub
  have hact := active_matches_of_sub hsub
  constructor
  · intro hno
    have hdec : ∀ s ∈ app_subcommands, s.name = "serve-one" ∨ s.name = "reverse-client" ∨
        (∀ b ∈ s.args, ¬b.name = "bind-address") := by decide
    rcases hdec sub hmem with h1 | h1 | h1
    · exfalso
      apply hno
      left
      rw [hname] at h1
      rw [hmode, h1]
    · exfalso
      apply hno
      right
      rw [hname] at h1
      rw [hmode, h1]
    · have hn := value_of_none_of_keysOk hkeys h1
      rw [bind_address, hact]
      simp [hn]
  · intro hyes
    have hdec2 : ∀ s ∈ app_subcommands, (s.name = "serve-one" ∨ s.name = "reverse-client") →
        ∃ b ∈ s.args, b.name = "bind-address" ∧ b.defaultValue.isSome = true := by decide
    have ht : sub.name = "serve-one" ∨ sub.name = "reverse-client" := by
      rcases hyes with h1 | h1
      · left
        rw [hname]
        rw [hmode] at h1
        exact Option.some.inj h1
      · right
        rw [hname]
        rw [hmode] at h1
        exact Option.some.inj h1
    obtain ⟨a, ha, hnm, hd⟩ := hdec2 sub hmem ht
    have hv := hdef a ha hd
    rw [hnm] at hv
    cases hvo : value_of sm "bind-address" with
    | none => rw [hvo] at hv; simp at hv
    | some v =>
      refine ⟨sm, v, hact, hvo, ?_⟩
      rw [bind_address, hact]
      simp [hvo]

/-- C6 witness: the guide mode (no bind-address field) yields the defensive
default. -/
theorem claim_C6_w :
    bind_address (forceResolved (create_matches ["oxy", "guide"] [])) = some "0.0.0.0" := by
  have h := (claim_C6.2.2.2.2 ["oxy", "guide"] []
    (forceResolved (create_matches ["oxy", "guide"] [])) (by decide)).1
  exact h (by decide)

/-- C7: the logging bootstrap maps verbosity-flag occurrence counts to levels
as 0 to info, 1 to debug, 2 to trace, and 3 or more to trace; the level
`process` computes is exactly this function of `occurrences_of "verbose"` on
the active mode's matches. -/
theorem claim_C7 :
    verbosity_level 0 = "info" ∧ verbosity_level 1 = "debug" ∧ verbosity_level 2 = "trace" ∧
    (∀ n, 3 ≤ n → verbosity_level n = "trace") ∧
    (∀ m sm, active_matches m = some sm →
      process_level m = some (verbosity_level (occurrences_of sm "verbose"))) := by
  refine ⟨rfl, rfl, rfl, ?_, ?_⟩
  · intro n hn
    rcases n with _ | _ | _ | k
    · exact absurd hn (by decide)
    · exact absurd hn (by decide)
    · exact absurd hn (by decide)
    · rfl
  · intro m sm hact
    rw [process_level, hact]
    rfl

/-- C7 witness: seven occurrences still map to trace, and a concrete parsed
invocation with two `-v` flags gets its level from the occurrence count. -/
theorem claim_C7_w :
    verbosity_level 7 = "trace" ∧
    process_level (forceResolved (create_matches ["oxy", "client", "h", "-v", "-v"] [])) =
      some (verbosity_level (occurrences_of
        ((active_matches (forceResolved
          (create_matches ["oxy", "client", "h", "-v", "-v"] []))).getD []) "verbose")) := by
  constructor
  · exact claim_C7.2.2.2.1 7 (by decide)
  · exact claim_C7.2.2.2.2 _ _ (by decide)

/-- C8: `batched_metacommands()` returns the repeated `-m` values in
left-to-right order with multiplicity (`-m a -m b -m c` gives
`["a", "b", "c"]`), and the empty list when no metacommand was recorded. -/
theorem claim_C8 :
    resolved_metacommands
        (create_matches ["oxy", "client", "host", "-m", "a", "-m", "b", "-m", "c"] [])
      = some ["a", "b", "c"] ∧
    resolved_metacommands (create_matches ["oxy", "client", "host"] []) = some [] ∧
    (∀ m sm, active_matches m = some sm → values_of sm "metacommand" = none →
      batched_metacommands m = some []) := by
  refine ⟨by decide, by decide, ?_⟩
  intro m sm hact hv
  rw [batched_metacommands, hact]
  simp [hv]

/-- C8 witness: a resolved server invocation (no metacommand argument at all)
yields the empty list. -/
theorem claim_C8_w :
    batched_metacommands (forceResolved (create_matches ["oxy", "server"] [])) = some [] := by
  exact claim_C8.2.2 (forceResolved (create_matches ["oxy", "server"] []))
    ((active_matches (forceResolved (create_matches ["oxy", "server"] []))).getD [])
    (by decide) (by decide)

/-- C9: the `MATCHES` cache is filled on first access and immutable
afterwards: after the first dereference, any later dereference — even with
the process argument vector and environment changed — returns the identical
outcome, so `mode()` and `destination()` values are stable. -/
theorem claim_C9 (s : ProcState) (argv2 : List String) (env2 : Env) :
    (MATCHES_access s).2.cache = some (MATCHES_access s).1 ∧
    (MATCHES_access { (MATCHES_access s).2 with argv := argv2, env := env2 }).1
      = (MATCHES_access s).1 ∧
    resolved_mode (MATCHES_access { (MATCHES_access s).2 with argv := argv2, env := env2 }).1
      = resolved_mode (MATCHES_access s).1 ∧
    resolved_destination
        (MATCHES_access { (MATCHES_access s).2 with argv := argv2, env := env2 }).1
      = resolved_destination (MATCHES_access s).1 := by
  cases hc : s.cache with
  | some m => simp [MATCHES_access, hc]
  | none => simp [MATCHES_access, hc]

/-- C10: every resolved invocation has an active subcommand, so
`subcommand_name().unwrap()` in `mode()` and
`subcommand_matches(mode()).unwrap()` in `matches()` never panic: both are
`some` for every resolved parse. -/
theorem claim_C10 (argv : List String) (env : Env) (m : Matches)
    (h : create_matches argv env = .resolved m) :
    (mode m).isSome = true ∧ (active_matches m).isSome = true := by
  obtain ⟨t, sub, sm, hsub, -, -, -, -, -⟩ := create_matches_good h
  rw [mode_of_sub hsub, active_matches_of_sub hsub]
  exact ⟨rfl, rfl⟩

/-- C10 witness: the copy mode invocation resolves with a subcommand and
active matches. -/
theorem claim_C10_w :
    (mode (forceResolved (create_matches ["oxy", "copy"] []))).isSome = true ∧
    (active_matches (forceResolved (create_matches ["oxy", "copy"] []))).isSome = true := by
  exact claim_C10 ["oxy", "copy"] [] (forceResolved (create_matches ["oxy", "copy"] []))
    (by decide)

end Oxy
